import Mathlib

/-!
Verification of the log4j-sniffer repository: a shallow embedding of the
archive format detector (`pkg/archive/formats.go`), the tar reader
providers, and the docker image scanner (`ScanImages` / `scanImage`),
together with spec-modelled definitions for the components whose source
is not part of this snapshot (the crawler, identifier and reporter of
the `crawl` package).

Strings are modelled by Lean `String` (a wrapper around `List Char`);
Go's `strings.Split(s, ".")` is embedded as `splitOnDot` on the
underlying character list, and `strings.Join(parts, ".")` as `joinDot`.
-/

namespace LogSniffer

/-- The archive format enumeration of `pkg/archive/formats.go`
(`UnsupportedArchive`, `TarArchive`, `TarGzArchive`, `TarBz2Archive`,
`ZipArchive`). -/
inductive FormatType where
  | UnsupportedArchive
  | TarArchive
  | TarGzArchive
  | TarBz2Archive
  | ZipArchive
deriving DecidableEq, Repr

/-- Embedding of Go `strings.Split(s, ".")` on the character list of a
string: splits at every `'.'`, keeping empty segments, and yields one
(empty) segment for the empty input, exactly as Go does. -/
def splitOnDot : List Char → List (List Char)
  | [] => [[]]
  | c :: cs =>
    match splitOnDot cs with
    | [] => [[]]
    | s :: ss => if c = '.' then [] :: s :: ss else (c :: s) :: ss

/-- Embedding of Go `strings.Join(parts, ".")` on character lists. -/
def joinDot : List (List Char) → List Char
  | [] => []
  | [s] => s
  | s :: t :: rest => s ++ '.' :: joinDot (t :: rest)

/-- The fixed extension table of `formats.go`: Go map lookup is embedded
as a chain of key-equality tests (the map has exactly these ten keys). -/
def lookupExtension (s : String) : Option FormatType :=
  if s = "ear" then some .ZipArchive
  else if s = "jar" then some .ZipArchive
  else if s = "par" then some .ZipArchive
  else if s = "war" then some .ZipArchive
  else if s = "zip" then some .ZipArchive
  else if s = "tar" then some .TarArchive
  else if s = "tar.gz" then some .TarGzArchive
  else if s = "tgz" then some .TarGzArchive
  else if s = "tar.bz2" then some .TarBz2Archive
  else if s = "tbz2" then some .TarBz2Archive
  else none

/-- The dot-joined trailing segment suffix `strings.Join(fileSplit[i:], ".")`
used by `ParseArchiveFormatFromFile`. -/
def suffixFrom (fileSplit : List (List Char)) (i : Nat) : String :=
  ⟨joinDot (fileSplit.drop i)⟩

/-- Embedding of `ParseArchiveFormatFromFile` from `pkg/archive/formats.go`:
split the filename on `.`; with fewer than two segments return
`(UnsupportedArchive, false)`; otherwise look up the joined suffix starting
at index `len-1` (the final segment) and then at index `len-2` (the final
two segments), returning the first hit; otherwise
`(UnsupportedArchive, false)`. -/
def ParseArchiveFormatFromFile (filename : String) : FormatType × Bool :=
  let fileSplit := splitOnDot filename.data
  if fileSplit.length < 2 then (.UnsupportedArchive, false)
  else
    match lookupExtension (suffixFrom fileSplit (fileSplit.length - 1)) with
    | some archive => (archive, true)
    | none =>
      match lookupExtension (suffixFrom fileSplit (fileSplit.length - 2)) with
      | some archive => (archive, true)
      | none => (.UnsupportedArchive, false)

/-- The detector exactly as the specification words it: split the filename
on `.` and check, from the end, the compound suffix of length 2 first and
the suffix of length 1 second against the same extension table. Stated
from the spec so that it can be compared with the source function. -/
def detectSpecOrder (filename : String) : FormatType × Bool :=
  let fileSplit := splitOnDot filename.data
  if fileSplit.length < 2 then (.UnsupportedArchive, false)
  else
    match lookupExtension (suffixFrom fileSplit (fileSplit.length - 2)) with
    | some archive => (archive, true)
    | none =>
      match lookupExtension (suffixFrom fileSplit (fileSplit.length - 1)) with
      | some archive => (archive, true)
      | none => (.UnsupportedArchive, false)

theorem splitOnDot_ne_nil (l : List Char) : splitOnDot l ≠ [] := by
  induction l with
  | nil => simp [splitOnDot]
  | cons c cs ih =>
    simp only [splitOnDot]
    cases h : splitOnDot cs with
    | nil => simp
    | cons s ss =>
      by_cases hc : c = '.' <;> simp [hc]

theorem splitOnDot_cons_dot (cs : List Char) :
    splitOnDot ('.' :: cs) = [] :: splitOnDot cs := by
  cases h : splitOnDot cs with
  | nil => exact absurd h (splitOnDot_ne_nil cs)
  | cons s ss => simp [splitOnDot, h]

theorem splitOnDot_cons_ne {c : Char} (hc : c ≠ '.') (cs : List Char) :
    ∃ t ts, splitOnDot cs = t :: ts ∧ splitOnDot (c :: cs) = (c :: t) :: ts := by
  cases h : splitOnDot cs with
  | nil => exact absurd h (splitOnDot_ne_nil cs)
  | cons t ts => exact ⟨t, ts, rfl, by simp [splitOnDot, h, hc]⟩

theorem splitOnDot_no_dot {l : List Char} {s : List Char}
    (hs : s ∈ splitOnDot l) : '.' ∉ s := by
  induction l generalizing s with
  | nil =>
    simp only [splitOnDot, List.mem_singleton] at hs
    subst hs; simp
  | cons c cs ih =>
    by_cases hc : c = '.'
    · subst hc
      rw [splitOnDot_cons_dot] at hs
      rcases List.mem_cons.mp hs with h1 | h1
      · subst h1; simp
      · exact ih h1
    · obtain ⟨t, ts, h, hrec⟩ := splitOnDot_cons_ne hc cs
      rw [hrec] at hs
      rcases List.mem_cons.mp hs with h1 | h1
      · subst h1
        intro hmem
        rcases List.mem_cons.mp hmem with hd | hd
        · exact hc hd.symm
        · exact ih (by rw [h]; exact List.mem_cons_self t ts) hd
      · exact ih (by rw [h]; exact List.mem_cons_of_mem t h1)

theorem splitOnDot_append (a b : List Char) :
    splitOnDot (a ++ '.' :: b) = splitOnDot a ++ splitOnDot b := by
  induction a with
  | nil =>
    show splitOnDot ('.' :: b) = splitOnDot [] ++ splitOnDot b
    rw [splitOnDot_cons_dot]; rfl
  | cons c cs ih =>
    show splitOnDot (c :: (cs ++ '.' :: b)) = splitOnDot (c :: cs) ++ splitOnDot b
    by_cases hc : c = '.'
    · subst hc
      rw [splitOnDot_cons_dot, splitOnDot_cons_dot, ih]
      rfl
    · obtain ⟨t, ts, h, hrec⟩ := splitOnDot_cons_ne hc cs
      obtain ⟨u, us, h2, hrec2⟩ := splitOnDot_cons_ne hc (cs ++ '.' :: b)
      rw [hrec, hrec2]
      rw [ih, h] at h2
      simp only [List.cons_append] at h2
      injection h2 with hu hus
      subst hu; subst hus
      simp

theorem splitOnDot_of_no_dot {l : List Char} (h : '.' ∉ l) :
    splitOnDot l = [l] := by
  induction l with
  | nil => rfl
  | cons c cs ih =>
    have hc : c ≠ '.' := fun hd => h (hd ▸ List.mem_cons_self c cs)
    have hcs : '.' ∉ cs := fun hd => h (List.mem_cons_of_mem c hd)
    simp [splitOnDot, ih hcs, hc]

theorem dot_split_unique {x y u v : List Char} (hx : '.' ∉ x) (hu : '.' ∉ u)
    (h : x ++ '.' :: y = u ++ '.' :: v) : x = u ∧ y = v := by
  induction x generalizing u with
  | nil =>
    cases u with
    | nil => simpa using h
    | cons c u' =>
      exfalso
      simp only [List.nil_append, List.cons_append, List.cons.injEq] at h
      exact hu (h.1 ▸ List.mem_cons_self c u')
  | cons c x' ih =>
    cases u with
    | nil =>
      exfalso
      simp only [List.cons_append, List.nil_append, List.cons.injEq] at h
      exact hx (h.1.symm ▸ List.mem_cons_self c x')
    | cons d u' =>
      simp only [List.cons_append, List.cons.injEq] at h
      have hx' : '.' ∉ x' := fun hm => hx (List.mem_cons_of_mem c hm)
      have hu' : '.' ∉ u' := fun hm => hu (List.mem_cons_of_mem d hm)
      obtain ⟨h1, h2⟩ := ih hx' hu' h.2
      exact ⟨by rw [h.1, h1], h2⟩

theorem drop_last_two {α : Type} (L : List α) (h : 2 ≤ L.length) :
    ∃ x y, L.drop (L.length - 2) = [x, y] ∧ L.drop (L.length - 1) = [y] := by
  induction L with
  | nil => simp at h
  | cons a L ih =>
    rcases Nat.lt_or_ge L.length 2 with hlt | hge
    · have h1 : L.length = 1 := by
        simp only [List.length_cons] at h
        omega
      obtain ⟨y, hy⟩ := List.length_eq_one.mp h1
      subst hy
      exact ⟨a, y, by simp, by simp⟩
    · obtain ⟨x, y, h2, h1⟩ := ih hge
      refine ⟨x, y, ?_, ?_⟩
      · have he : (a :: L).length - 2 = (L.length - 2) + 1 := by
          simp only [List.length_cons]; omega
        rw [he, List.drop_succ_cons, h2]
      · have he : (a :: L).length - 1 = (L.length - 1) + 1 := by
          simp only [List.length_cons]; omega
        rw [he, List.drop_succ_cons, h1]

theorem compound_ne_dotfree {x y : List Char} {k : String} (hk : '.' ∉ k.data) :
    (⟨x ++ '.' :: y⟩ : String) ≠ k := by
  intro he
  apply hk
  have hd : x ++ '.' :: y = k.data := String.ext_iff.mp he
  rw [← hd]
  exact List.mem_append_right x (List.mem_cons_self _ _)

set_option maxHeartbeats 1000000 in
theorem lookupExtension_compound {x y : List Char} {fmt : FormatType}
    (hx : '.' ∉ x) (hy : '.' ∉ y)
    (h : lookupExtension ⟨x ++ '.' :: y⟩ = some fmt) :
    x = "tar".data ∧
      (y = "gz".data ∧ fmt = .TarGzArchive ∨ y = "bz2".data ∧ fmt = .TarBz2Archive) := by
  unfold lookupExtension at h
  split_ifs at h with h1 h2 h3 h4 h5 h6 h7 h8 h9 h10
  · exact absurd h1 (compound_ne_dotfree (by decide))
  · exact absurd h2 (compound_ne_dotfree (by decide))
  · exact absurd h3 (compound_ne_dotfree (by decide))
  · exact absurd h4 (compound_ne_dotfree (by decide))
  · exact absurd h5 (compound_ne_dotfree (by decide))
  · exact absurd h6 (compound_ne_dotfree (by decide))
  · have hd : x ++ '.' :: y = "tar".data ++ '.' :: "gz".data := by
      have := String.ext_iff.mp h7
      simpa using this
    obtain ⟨hx1, hy1⟩ := dot_split_unique hx (by decide) hd
    injection h with h
    exact ⟨hx1, Or.inl ⟨hy1, h.symm⟩⟩
  · exact absurd h8 (compound_ne_dotfree (by decide))
  · have hd : x ++ '.' :: y = "tar".data ++ '.' :: "bz2".data := by
      have := String.ext_iff.mp h9
      simpa using this
    obtain ⟨hx1, hy1⟩ := dot_split_unique hx (by decide) hd
    injection h with h
    exact ⟨hx1, Or.inr ⟨hy1, h.symm⟩⟩
  · exact absurd h10 (compound_ne_dotfree (by decide))

theorem lookup_single_of_compound {x y : List Char} {fmt : FormatType}
    (hx : '.' ∉ x) (hy : '.' ∉ y)
    (h : lookupExtension ⟨x ++ '.' :: y⟩ = some fmt) :
    lookupExtension ⟨y⟩ = none := by
  obtain ⟨hx1, hy1⟩ := lookupExtension_compound hx hy h
  rcases hy1 with ⟨hy2, _⟩ | ⟨hy2, _⟩ <;> subst hy2 <;> decide

theorem detect_order_irrelevant (f : String) :
    detectSpecOrder f = ParseArchiveFormatFromFile f := by
  simp only [detectSpecOrder, ParseArchiveFormatFromFile]
  by_cases hlen : (splitOnDot f.data).length < 2
  · simp [hlen]
  · have hge : 2 ≤ (splitOnDot f.data).length := not_lt.mp hlen
    obtain ⟨x, y, h2, h1⟩ := drop_last_two _ hge
    have hxmem : x ∈ splitOnDot f.data :=
      List.drop_subset _ _ (by rw [h2]; exact List.mem_cons_self _ _)
    have hymem : y ∈ splitOnDot f.data :=
      List.drop_subset _ _ (by rw [h2]; exact List.mem_cons_of_mem _ (List.mem_cons_self _ _))
    have hx : '.' ∉ x := splitOnDot_no_dot hxmem
    have hy : '.' ∉ y := splitOnDot_no_dot hymem
    have hs1 : suffixFrom (splitOnDot f.data) ((splitOnDot f.data).length - 1) = ⟨y⟩ := by
      rw [suffixFrom, h1]; simp [joinDot]
    have hs2 : suffixFrom (splitOnDot f.data) ((splitOnDot f.data).length - 2) =
        ⟨x ++ '.' :: y⟩ := by
      rw [suffixFrom, h2]; simp [joinDot]
    rw [if_neg hlen, if_neg hlen, hs1, hs2]
    cases hc : lookupExtension ⟨x ++ '.' :: y⟩ with
    | none => cases hs : lookupExtension ⟨y⟩ <;> rfl
    | some fmt =>
      rw [lookup_single_of_compound hx hy hc]

/-- C1: for every filename, the format detector splits on `.` and matches,
from the end, the compound two-segment suffix and the one-segment suffix
against the fixed extension table: the source function agrees on every
filename with the detector that tries the length-2 suffix first, and
`app.tar.gz` resolves to the tar.gz format rather than to the format of
only the final segment. -/
theorem parseArchiveFormat_compound_suffix_order :
    (∀ filename : String, detectSpecOrder filename = ParseArchiveFormatFromFile filename) ∧
    ParseArchiveFormatFromFile "app.tar.gz" = (FormatType.TarGzArchive, true) :=
  ⟨detect_order_irrelevant, by decide⟩

/-- The dot-joined suffix of the final `k` split segments of a filename,
as consulted by `ParseArchiveFormatFromFile`. -/
def trailingSuffix (filename : String) (k : Nat) : String :=
  suffixFrom (splitOnDot filename.data) ((splitOnDot filename.data).length - k)

/-- C5: when neither the one-segment nor the two-segment trailing suffix of
a filename is a key of the extension table, the detector returns
`(UnsupportedArchive, false)`: a missing match is reported as
"not an archive", never as an error. -/
theorem parseArchiveFormat_no_match_is_not_error (filename : String)
    (h1 : lookupExtension (trailingSuffix filename 1) = none)
    (h2 : lookupExtension (trailingSuffix filename 2) = none) :
    ParseArchiveFormatFromFile filename = (FormatType.UnsupportedArchive, false) := by
  simp only [trailingSuffix] at h1 h2
  simp only [ParseArchiveFormatFromFile]
  by_cases hlen : (splitOnDot filename.data).length < 2
  · simp [hlen]
  · rw [if_neg hlen, h1, h2]

/-- Witness for C5 at the concrete filename `readme.txt`. -/
theorem parseArchiveFormat_no_match_is_not_error_witness :
    ParseArchiveFormatFromFile "readme.txt" = (FormatType.UnsupportedArchive, false) :=
  parseArchiveFormat_no_match_is_not_error "readme.txt" (by decide) (by decide)

/-- C9: a filename containing no `.` at all is never matched, even when
the entire filename is itself a key of the extension table: the bare
filename `tar` is a table key yet yields `(UnsupportedArchive, false)`. -/
theorem parseArchiveFormat_requires_dot :
    (∀ filename : String, '.' ∉ filename.data →
      ParseArchiveFormatFromFile filename = (FormatType.UnsupportedArchive, false)) ∧
    ParseArchiveFormatFromFile "tar" = (FormatType.UnsupportedArchive, false) ∧
    lookupExtension "tar" = some FormatType.TarArchive := by
  refine ⟨fun filename h => ?_, by decide, by decide⟩
  simp only [ParseArchiveFormatFromFile, splitOnDot_of_no_dot h]
  simp

/-- Witness for C9's universally quantified part at the dotless filename
`hello`. -/
theorem parseArchiveFormat_requires_dot_witness :
    ParseArchiveFormatFromFile "hello" = (FormatType.UnsupportedArchive, false) :=
  parseArchiveFormat_requires_dot.1 "hello" (by decide)

theorem stringAppend_assoc (a b c : String) : a ++ b ++ c = a ++ (b ++ c) :=
  String.ext (List.append_assoc a.data b.data c.data)

theorem parse_ends_with_ext {ext : String} {fmt : FormatType}
    (hd : '.' ∉ ext.data) (hl : lookupExtension ext = some fmt) (s : String) :
    ParseArchiveFormatFromFile (s ++ "." ++ ext) = (fmt, true) := by
  have hdata : (s ++ "." ++ ext).data = s.data ++ '.' :: ext.data := by
    show (s.data ++ '.' :: []) ++ ext.data = s.data ++ '.' :: ext.data
    simp
  have hsplit : splitOnDot (s ++ "." ++ ext).data = splitOnDot s.data ++ [ext.data] := by
    rw [hdata, splitOnDot_append, splitOnDot_of_no_dot hd]
  have hpos : 0 < (splitOnDot s.data).length :=
    List.length_pos.mpr (splitOnDot_ne_nil s.data)
  simp only [ParseArchiveFormatFromFile, hsplit]
  have hlen : ¬(splitOnDot s.data ++ [ext.data]).length < 2 := by
    simp only [List.length_append, List.length_singleton]
    omega
  rw [if_neg hlen]
  have hdrop : (splitOnDot s.data ++ [ext.data]).drop
      ((splitOnDot s.data ++ [ext.data]).length - 1) = [ext.data] := by
    have he : (splitOnDot s.data ++ [ext.data]).length - 1 = (splitOnDot s.data).length := by
      simp only [List.length_append, List.length_singleton]
      omega
    rw [he, List.drop_left]
  rw [suffixFrom, hdrop]
  show (match lookupExtension ⟨joinDot [ext.data]⟩ with
    | some archive => (archive, true)
    | none =>
      match lookupExtension (suffixFrom (splitOnDot s.data ++ [ext.data])
          ((splitOnDot s.data ++ [ext.data]).length - 2)) with
      | some archive => (archive, true)
      | none => (FormatType.UnsupportedArchive, false)) = (fmt, true)
  have : (⟨joinDot [ext.data]⟩ : String) = ext := rfl
  rw [this, hl]

/-- C6: every filename ending in one of the five zip-family extensions
`zip`, `jar`, `war`, `ear`, `par` is detected as the same zip-structured
format `ZipArchive`, with a positive match. -/
theorem parseArchiveFormat_zip_family (s : String) :
    ParseArchiveFormatFromFile (s ++ ".zip") = (FormatType.ZipArchive, true) ∧
    ParseArchiveFormatFromFile (s ++ ".jar") = (FormatType.ZipArchive, true) ∧
    ParseArchiveFormatFromFile (s ++ ".war") = (FormatType.ZipArchive, true) ∧
    ParseArchiveFormatFromFile (s ++ ".ear") = (FormatType.ZipArchive, true) ∧
    ParseArchiveFormatFromFile (s ++ ".par") = (FormatType.ZipArchive, true) := by
  refine ⟨?_, ?_, ?_, ?_, ?_⟩
  · rw [show (".zip" : String) = "." ++ "zip" from rfl, ← stringAppend_assoc]
    exact parse_ends_with_ext (by decide) (by decide) s
  · rw [show (".jar" : String) = "." ++ "jar" from rfl, ← stringAppend_assoc]
    exact parse_ends_with_ext (by decide) (by decide) s
  · rw [show (".war" : String) = "." ++ "war" from rfl, ← stringAppend_assoc]
    exact parse_ends_with_ext (by decide) (by decide) s
  · rw [show (".ear" : String) = "." ++ "ear" from rfl, ← stringAppend_assoc]
    exact parse_ends_with_ext (by decide) (by decide) s
  · rw [show (".par" : String) = "." ++ "par" from rfl, ← stringAppend_assoc]
    exact parse_ends_with_ext (by decide) (by decide) s

/-- C8: beyond the formats named in the specification table, the extension
table also recognizes the single-segment extensions `tgz` (mapped to the
tar.gz format) and `tbz2` (mapped to the tar.bz2 format). -/
theorem parseArchiveFormat_tgz_tbz2 (s : String) :
    ParseArchiveFormatFromFile (s ++ ".tgz") = (FormatType.TarGzArchive, true) ∧
    ParseArchiveFormatFromFile (s ++ ".tbz2") = (FormatType.TarBz2Archive, true) := by
  constructor
  · rw [show (".tgz" : String) = "." ++ "tgz" from rfl, ← stringAppend_assoc]
    exact parse_ends_with_ext (by decide) (by decide) s
  · rw [show (".tbz2" : String) = "." ++ "tbz2" from rfl, ← stringAppend_assoc]
    exact parse_ends_with_ext (by decide) (by decide) s

/-- Bytes flowing out of a Go `io.Reader`, modelled as a byte list. -/
abbrev ByteStream := List Nat

/-- Go errors are modelled by their message. -/
abbrev GoError := String

/-- The value built by `tar.NewReader`, which wraps a byte source and
never fails at construction time. -/
structure TarReader where
  source : ByteStream

/-- Embedding of `tar.NewReader`: wraps the byte source, no error. -/
def tarNewReader (r : ByteStream) : TarReader := ⟨r⟩

/-- Embedding of `TarGzipReader` from `formats.go`: builds a gzip reader
over the byte source — failing exactly when `gzip.NewReader` fails, since
that codec reads the gzip header eagerly — and on success wraps it with
`tar.NewReader`. The gzip codec is an external collaborator and is passed
as a function parameter. -/
def TarGzipReader (gzipNewReader : ByteStream → Except GoError ByteStream)
    (iReader : ByteStream) : Except GoError TarReader :=
  match gzipNewReader iReader with
  | .error err => .error err
  | .ok gzipReader => .ok (tarNewReader gzipReader)

/-- Embedding of `TarBzip2Reader` from `formats.go`: `bzip2.NewReader`
returns no error in Go, so the bzip2 codec is modelled as a total
function, and the provider always returns a nil error. -/
def TarBzip2Reader (bzip2NewReader : ByteStream → ByteStream)
    (iReader : ByteStream) : Except GoError TarReader :=
  .ok (tarNewReader (bzip2NewReader iReader))

/-- Embedding of `TarUncompressedReader` from `formats.go`. -/
def TarUncompressedReader (iReader : ByteStream) : Except GoError TarReader :=
  .ok (tarNewReader iReader)

/-- C10: for every byte source, `TarBzip2Reader` and
`TarUncompressedReader` return a nil error, while `TarGzipReader` returns
a non-nil error exactly when constructing the gzip reader over the byte
source fails. -/
theorem tarReaderProviders_error_behaviour :
    (∀ (bzip2NewReader : ByteStream → ByteStream) (iReader : ByteStream),
      TarBzip2Reader bzip2NewReader iReader =
        Except.ok (tarNewReader (bzip2NewReader iReader))) ∧
    (∀ iReader : ByteStream,
      TarUncompressedReader iReader = Except.ok (tarNewReader iReader)) ∧
    (∀ (gzipNewReader : ByteStream → Except GoError ByteStream) (iReader : ByteStream),
      (∃ e, TarGzipReader gzipNewReader iReader = Except.error e) ↔
        ∃ e, gzipNewReader iReader = Except.error e) := by
  refine ⟨fun _ _ => rfl, fun _ => rfl, fun gzipNewReader iReader => ?_⟩
  unfold TarGzipReader
  cases h : gzipNewReader iReader with
  | error e => exact ⟨fun _ => ⟨e, rfl⟩, fun _ => ⟨e, rfl⟩⟩
  | ok g =>
    constructor
    · rintro ⟨e, he⟩
      cases he
    · rintro ⟨e, he⟩
      cases he

/-- Modelled from the spec: `crawl.Stats` (its source is not part of this
snapshot) — running counters for one crawl: total scanned files and the
vulnerable-path total, merged across images by `Append`. -/
structure Stats where
  filesScanned : Nat
  vulnerableFileCount : Nat
deriving DecidableEq, Repr

/-- The zero value `crawl.Stats{}`. -/
def Stats.empty : Stats := ⟨0, 0⟩

/-- Modelled from the spec: `Stats.Append` merges two accumulators by
adding counters componentwise. -/
def Stats.append (s t : Stats) : Stats :=
  ⟨s.filesScanned + t.filesScanned, s.vulnerableFileCount + t.vulnerableFileCount⟩

/-- The fields of `dockertypes.ImageSummary` consumed by `ScanImages`. -/
structure ImageSummary where
  id : String
  repoTags : List String

/-- Modelled from the spec: `scan.WriteSummary` renders the summary line
with the cumulative vulnerable-path count. -/
def writeSummary (count : Nat) : String :=
  s!"vulnerableFileCount: {count}"

/-- The loop body of `Scanner.ScanImages` (`part_000`): images without
repo tags are skipped; a per-image error is printed to the error writer
and scanning continues with the next image; a successful image scan has
its stats appended and its reported vulnerable paths added to the
reporter count. `scanOne` abstracts `Scanner.scanImage` together with the
reporter state it feeds: it yields the image's stats and the number of
vulnerable paths the reporter collected for it (the reporter and crawler
sources are not part of this snapshot and are modelled from the spec,
which counts only roots that succeeded). -/
def scanImagesLoop (scanOne : ImageSummary → Except GoError (Stats × Nat)) :
    List ImageSummary → Stats → Nat → List GoError → Stats × Nat × List GoError
  | [], stats, count, errs => (stats, count, errs)
  | image :: rest, stats, count, errs =>
    if image.repoTags.length = 0 then scanImagesLoop scanOne rest stats count errs
    else
      match scanOne image with
      | .error err => scanImagesLoop scanOne rest stats count (errs ++ [err])
      | .ok (imageStats, c) =>
        scanImagesLoop scanOne rest (stats.append imageStats) (count + c) errs

/-- The observable outcome of `Scanner.ScanImages`: the returned count,
the merged stats, the lines written to the error writer, and the summary
output. -/
structure ScanImagesResult where
  count : Nat
  stats : Stats
  errorLines : List GoError
  summaryLines : List String
deriving DecidableEq, Repr

/-- Embedding of `Scanner.ScanImages` (`part_000`): list the docker
images (failure aborts the run), scan them one at a time with the loop
above, then emit the summary when configured and return the reporter
count. -/
def ScanImages (imageListResult : Except GoError (List ImageSummary))
    (scanOne : ImageSummary → Except GoError (Stats × Nat))
    (outputSummary : Bool) : Except GoError ScanImagesResult :=
  match imageListResult with
  | .error err => .error ("could not list docker images: " ++ err)
  | .ok imageList =>
    match scanImagesLoop scanOne imageList Stats.empty 0 [] with
    | (stats, count, errs) =>
      .ok { count := count
            stats := stats
            errorLines := errs
            summaryLines := if outputSummary then [writeSummary count] else [] }

/-- The per-image outcomes of the images that are tagged and scan
successfully, in image-list order. -/
def successfulScans (scanOne : ImageSummary → Except GoError (Stats × Nat))
    (images : List ImageSummary) : List (Stats × Nat) :=
  images.filterMap fun image =>
    if image.repoTags.length = 0 then none
    else (scanOne image).toOption

/-- The errors of the tagged images whose scan fails, in image-list
order. -/
def failedScanErrors (scanOne : ImageSummary → Except GoError (Stats × Nat))
    (images : List ImageSummary) : List GoError :=
  images.filterMap fun image =>
    if image.repoTags.length = 0 then none
    else
      match scanOne image with
      | .error e => some e
      | .ok _ => none

theorem scanImagesLoop_spec (scanOne : ImageSummary → Except GoError (Stats × Nat))
    (images : List ImageSummary) (stats : Stats) (count : Nat) (errs : List GoError) :
    scanImagesLoop scanOne images stats count errs =
      (((successfulScans scanOne images).map Prod.fst).foldl Stats.append stats,
       count + ((successfulScans scanOne images).map Prod.snd).sum,
       errs ++ failedScanErrors scanOne images) := by
  induction images generalizing stats count errs with
  | nil => simp [scanImagesLoop, successfulScans, failedScanErrors]
  | cons image rest ih =>
    simp only [scanImagesLoop, successfulScans, failedScanErrors, List.filterMap_cons]
    by_cases h : image.repoTags.length = 0
    · simp only [if_pos h]
      rw [ih]
      simp [successfulScans, failedScanErrors]
    · simp only [if_neg h]
      cases hs : scanOne image with
      | error e =>
        simp [successfulScans, failedScanErrors, Except.toOption, ih]
      | ok p =>
        obtain ⟨imageStats, c⟩ := p
        simp [successfulScans, failedScanErrors, Except.toOption, ih, Nat.add_assoc]

/-- C2: in multi-image mode, a failing image scan has its error written
to the error writer and the image skipped; the run continues through the
remaining images, still emits a summary, and returns the cumulative count
of the roots that succeeded — a per-image failure never becomes the
return error of `ScanImages`. -/
theorem scanImages_recoverable_per_image
    (scanOne : ImageSummary → Except GoError (Stats × Nat))
    (images : List ImageSummary) (outputSummary : Bool) :
    ∃ r : ScanImagesResult,
      ScanImages (Except.ok images) scanOne outputSummary = Except.ok r ∧
      r.count = ((successfulScans scanOne images).map Prod.snd).sum ∧
      r.stats = ((successfulScans scanOne images).map Prod.fst).foldl
        Stats.append Stats.empty ∧
      r.errorLines = failedScanErrors scanOne images ∧
      r.summaryLines = (if outputSummary then [writeSummary r.count] else []) := by
  refine ⟨{ count := ((successfulScans scanOne images).map Prod.snd).sum
            stats := ((successfulScans scanOne images).map Prod.fst).foldl
              Stats.append Stats.empty
            errorLines := failedScanErrors scanOne images
            summaryLines :=
              if outputSummary then
                [writeSummary (((successfulScans scanOne images).map Prod.snd).sum)]
              else [] }, ?_, rfl, rfl, rfl, rfl⟩
  simp only [ScanImages, scanImagesLoop_spec]
  simp

/-- The outcomes of the fallible external steps of `Scanner.scanImage`
(`part_000`), in program order: parsing the image reference, loading the
image from the daemon, `os.MkdirTemp`, `os.Create` of `image.tar` inside
the temporary directory, `crane.Export`, `archiver.Unarchive`,
`os.Remove` of `image.tar`, `os.Chdir`, the `os.RemoveAll` performed by
the deferred cleanup, and the final `Crawl` result. -/
structure ImageScanSteps where
  parseRefOk : Bool
  daemonImageOk : Bool
  mkdirOk : Bool
  createOk : Bool
  exportOk : Bool
  unarchiveOk : Bool
  removeTarOk : Bool
  chdirOk : Bool
  removeAllOk : Bool
  crawlResult : Except GoError Stats
deriving Repr

/-- Embedding of `Scanner.scanImage` (`part_000`), tracking as its second
component whether the temporary image-extraction directory still exists
when the function returns. The cleanup `defer` in the source is
registered only after `os.Create` succeeds, so the `os.Create` failure
path returns with the directory still present; on every later path the
deferred `os.RemoveAll` runs and the directory survives only when that
removal itself fails. -/
def scanImage (o : ImageScanSteps) : Except GoError Stats × Bool :=
  if o.parseRefOk = false then (.error "failed to get image reference", false)
  else if o.daemonImageOk = false then (.error "could not load image from daemon", false)
  else if o.mkdirOk = false then
    (.error "could not create temporary directory for image", false)
  else if o.createOk = false then
    (.error "could not create image.tar in temporary directory", true)
  else
    let deferredCleanup := fun (r : Except GoError Stats) => (r, !o.removeAllOk)
    if o.exportOk = false then deferredCleanup (.error "could not export image")
    else if o.unarchiveOk = false then deferredCleanup (.error "failed to extract image")
    else if o.removeTarOk = false then deferredCleanup (.error "could not remove image.tar")
    else if o.chdirOk = false then
      deferredCleanup (.error "could not change to extracted image directory")
    else deferredCleanup o.crawlResult

/-- The run of `scanImage` in which every step up to and including
`os.MkdirTemp` succeeds and then `os.Create` of `image.tar` fails. -/
def createFailureSteps : ImageScanSteps :=
  { parseRefOk := true, daemonImageOk := true, mkdirOk := true, createOk := false,
    exportOk := true, unarchiveOk := true, removeTarOk := true, chdirOk := true,
    removeAllOk := true, crawlResult := Except.ok Stats.empty }

/-- C3 (refuting the claim on the code): when `os.Create` fails directly
after the temporary directory was created, `scanImage` returns an error
with the temporary directory still present — the cleanup `defer` is
registered only after `os.Create`, so this error return path does not
remove the directory. -/
theorem scanImage_create_failure_leaks_tmpdir :
    scanImage createFailureSteps =
      (Except.error "could not create image.tar in temporary directory", true) := rfl

/-- On every path on which `os.Create` succeeded (and the deferred
`os.RemoveAll` itself succeeds), the temporary directory is removed —
the slip is confined to the `os.Create` failure path. -/
theorem scanImage_cleanup_after_create (o : ImageScanSteps)
    (hc : o.createOk = true) (hr : o.removeAllOk = true) :
    (scanImage o).2 = true → o.mkdirOk = false := by
  intro h
  by_contra hm
  simp only [Bool.not_eq_false] at hm
  simp only [scanImage, hm, hc, hr] at h
  by_cases h1 : o.parseRefOk = false <;>
    by_cases h2 : o.daemonImageOk = false <;>
      by_cases h3 : o.exportOk = false <;>
        by_cases h4 : o.unarchiveOk = false <;>
          by_cases h5 : o.removeTarOk = false <;>
            by_cases h6 : o.chdirOk = false <;>
              simp [h1, h2, h3, h4, h5, h6] at h

/-- Modelled from the spec: the independent evidence flags of a
`crawl.Finding` (the crawl package source is not part of this
snapshot). -/
structure Finding where
  jarName : Bool
  jarNameInsideArchive : Bool
  className : Bool
  classPackageAndName : Bool
  classFileMd5 : Bool
deriving DecidableEq, Repr

/-- Whether any evidence flag is set. -/
def Finding.any (f : Finding) : Bool :=
  f.jarName || f.jarNameInsideArchive || f.className ||
    f.classPackageAndName || f.classFileMd5

/-- Modelled from the spec: the parsed semantic version attached to a
finding when derivable. -/
structure Version where
  major : Nat
  minor : Nat
  patch : Nat
deriving DecidableEq, Repr

/-- Strict lexicographic order on versions. -/
def versionLt (a b : Version) : Bool :=
  if a.major ≠ b.major then a.major < b.major
  else if a.minor ≠ b.minor then a.minor < b.minor
  else a.patch < b.patch

/-- Modelled from the spec: the narrow CVE-2021-45105 band — versions
`≥ 2.16.0` and `< 2.17.0`. -/
def insideCve45105Band (v : Version) : Bool :=
  !versionLt v ⟨2, 16, 0⟩ && versionLt v ⟨2, 17, 0⟩

/-- Modelled from the spec: the base CVE range — versions below the
2.16.0 fix, to which the base CVE pair applies. -/
def insideBaseCveRange (v : Version) : Bool :=
  versionLt v ⟨2, 16, 0⟩

/-- Modelled from the spec: the reporter's per-path vulnerability
decision. A path is reportable when some evidence flag is set, except
that with the CVE-2021-45105 suppression switch on, a path whose
resolved version falls strictly inside the narrow band is excluded; a
path with no resolved version stays counted under the base CVEs. -/
def reportableVulnerability (disableCVE45105 : Bool) (f : Finding)
    (v : Option Version) : Bool :=
  f.any &&
    !(disableCVE45105 &&
      (match v with
       | some ver => insideCve45105Band ver
       | none => false))

/-- One scanned path with its finding and resolved version, as handed to
the reporter's `collect`. -/
structure PathResult where
  path : String
  finding : Finding
  version : Option Version
deriving DecidableEq, Repr

/-- Modelled from the spec: `vulnerableFileCount` — the number of
collected paths the reporter judges vulnerable. -/
def vulnerableFileCount (disableCVE45105 : Bool) (rs : List PathResult) : Nat :=
  (rs.filter fun r => reportableVulnerability disableCVE45105 r.finding r.version).length

/-- C4: with the narrow-CVE suppression switch enabled, a path whose only
evidence is a resolved version strictly inside the narrow band
contributes nothing to `vulnerableFileCount`, while a path whose
resolved version falls in the base CVE range is still counted. -/
theorem cve45105_suppression_law (f : Finding) (ver : Version)
    (path : String) (rest : List PathResult) (hf : f.any = true) :
    (insideCve45105Band ver = true →
      vulnerableFileCount true ({ path := path, finding := f, version := some ver } :: rest) =
        vulnerableFileCount true rest) ∧
    (insideBaseCveRange ver = true →
      vulnerableFileCount true ({ path := path, finding := f, version := some ver } :: rest) =
        vulnerableFileCount true rest + 1) := by
  constructor
  · intro hband
    simp [vulnerableFileCount, reportableVulnerability, hband]
  · intro hbase
    have hband : insideCve45105Band ver = false := by
      simp only [insideBaseCveRange] at hbase
      simp [insideCve45105Band, hbase]
    simp [vulnerableFileCount, reportableVulnerability, hband, hf]

/-- Witness for C4 at a concrete finding: a jar-name match at version
2.16.0 (inside the band) is suppressed, one at 2.14.1 (base range) is
counted, both with the switch on. -/
theorem cve45105_suppression_law_witness :
    (vulnerableFileCount true
        [{ path := "a", finding := ⟨true, false, false, false, false⟩,
           version := some ⟨2, 16, 0⟩ }] = vulnerableFileCount true []) ∧
    (vulnerableFileCount true
        [{ path := "a", finding := ⟨true, false, false, false, false⟩,
           version := some ⟨2, 14, 1⟩ }] = vulnerableFileCount true [] + 1) :=
  ⟨(cve45105_suppression_law ⟨true, false, false, false, false⟩ ⟨2, 16, 0⟩ "a" []
      (by decide)).1 (by decide),
   (cve45105_suppression_law ⟨true, false, false, false, false⟩ ⟨2, 14, 1⟩ "a" []
      (by decide)).2 (by decide)⟩

/-- Modelled from the spec: the input of one crawl — a directory tree in
which a file carries the virtual entries that the container reader would
yield for it when it is a recognized archive (nested to arbitrary
depth). -/
inductive FileNode where
  | file (name : String) (entries : List FileNode)
  | dir (name : String) (children : List FileNode)

mutual

/-- Modelled from the spec: the path walker over one node. A directory
whose name is on the ignore list is pruned; a regular file is identified
and counted, and when the format detector recognizes it as a container
its virtual entries are crawled recursively. `identify` abstracts the
identifier: finding and resolved version per node name. -/
def crawlNode (ignores : List String) (identify : String → Finding × Option Version)
    (disableCVE45105 : Bool) : FileNode → Stats
  | .file name entries =>
    let fv := identify name
    let self : Stats :=
      ⟨1, if reportableVulnerability disableCVE45105 fv.1 fv.2 then 1 else 0⟩
    if (ParseArchiveFormatFromFile name).2 then
      self.append (crawlForest ignores identify disableCVE45105 entries)
    else self
  | .dir name children =>
    if ignores.contains name then Stats.empty
    else crawlForest ignores identify disableCVE45105 children

/-- Modelled from the spec: the walker over a list of sibling nodes,
visited in order. -/
def crawlForest (ignores : List String) (identify : String → Finding × Option Version)
    (disableCVE45105 : Bool) : List FileNode → Stats
  | [] => Stats.empty
  | n :: rest =>
    (crawlNode ignores identify disableCVE45105 n).append
      (crawlForest ignores identify disableCVE45105 rest)

end

/-- The world one crawl runs in: the directory tree it reads and the
output it appends to. -/
structure CrawlWorld where
  tree : FileNode
  outputLog : List String

/-- Modelled from the spec: one full crawl run — compute the Stats of the
tree and append the summary to the output, leaving the tree itself
untouched. -/
def crawlRun (ignores : List String) (identify : String → Finding × Option Version)
    (disableCVE45105 : Bool) (w : CrawlWorld) : Stats × CrawlWorld :=
  let stats := crawlNode ignores identify disableCVE45105 w.tree
  (stats,
   { w with outputLog := w.outputLog ++ [writeSummary stats.vulnerableFileCount] })

/-- C7: a crawl run reads but never modifies the tree, so running the
crawl twice over an unchanged tree yields identical Stats: the second
run, started in the world the first run left behind, produces the same
counters as the first. -/
theorem crawl_idempotent (ignores : List String)
    (identify : String → Finding × Option Version) (disableCVE45105 : Bool)
    (w : CrawlWorld) :
    (crawlRun ignores identify disableCVE45105 w).2.tree = w.tree ∧
    (crawlRun ignores identify disableCVE45105
        (crawlRun ignores identify disableCVE45105 w).2).1 =
      (crawlRun ignores identify disableCVE45105 w).1 :=
  ⟨rfl, rfl⟩
